import Mathlib

/-!
Verification of `src/utils/data_processing.py` (spatial-plays): the OSM
way-to-polygon reconstruction pipeline, the fetch-or-cache loader, the
Overpass query builder and the Nominatim reverse-geocode helper.

Modeling conventions (shallow embedding):

* A dataframe row / JSON object is an association list `Row := List (String × JVal)`
  with Python-dict semantics: unique keys, insertion order preserved,
  assignment updates in place, deletion removes the key.  A missing
  dataframe column value reads as `JVal.nan` (pandas NaN fill).  Unlike
  float NaN, the model's `nan` equals itself; this matches pandas merge
  semantics (NaN join keys match each other) and no claim depends on
  NaN /= NaN.
* Numeric cells are integers.  Coordinates are only ever copied from cell
  to cell (zipped into tuples, wrapped as points, collected into rings),
  never computed with, so the number representation is irrelevant to every
  property proved here; float-specific behavior is out of scope.
* `ast.literal_eval` is modeled on the fragment it is applied to in this
  program: optionally negative integer literals and flat list/tuple
  displays of them, with blanks for whitespace.  Way node-id lists are
  exactly such literals.  Other Python literal forms (floats, strings,
  dicts, nested containers, booleans) are not representable and parse as
  errors in the model.
* Fallible code returns `Except PyErr`; an exception propagating out of a
  library call is an `Except.error`.
* The Overpass HTTP fetch and the on-disk cache are passed explicitly:
  `fs` maps a path to the parsed table stored there (if any), `http` maps
  a query string to the parsed `elements` array of the response.
-/

namespace OsmPoly

/-- Python exception classes that the modeled code can raise. -/
inductive PyErr where
  | nameError (n : String) : PyErr
  | keyError (k : String) : PyErr
  | valueError : PyErr
  | typeError : PyErr
  deriving DecidableEq, Repr

/-- A scalar cell payload: the coordinate values carried inside shapely
points / coordinate tuples / polygon rings. -/
inductive JScalar where
  | nanS : JScalar
  | numS (n : Int) : JScalar
  | strS (s : String) : JScalar
  deriving DecidableEq, Repr

/-- A Python value sitting in a dataframe cell or JSON field.  Lists and
tuples hold integers (the node-id domain), a nested `tags` mapping maps
tag keys to tag values (strings in Overpass responses), and the geometry
constructors carry scalar coordinate pairs. -/
inductive JVal where
  | nan : JVal
  | num (n : Int) : JVal
  | str (s : String) : JVal
  | ilist (xs : List Int) : JVal
  | ituple (xs : List Int) : JVal
  | obj (kvs : List (String × String)) : JVal
  | point (p : JScalar × JScalar) : JVal
  | ctuple (p : JScalar × JScalar) : JVal
  | poly (ring : List (JScalar × JScalar)) : JVal
  deriving DecidableEq, Repr

/-- One dataframe row / one JSON element, as an ordered key-value map. -/
abbrev Row := List (String × JVal)

/-- First value stored under key `k` (Python `d[k]` / `k in d`). -/
def lookupJ : Row → String → Option JVal
  | [], _ => none
  | (k2, v) :: rest, k => if k2 = k then some v else lookupJ rest k

/-- Reading a dataframe column: a row without the key reads as NaN. -/
def getCol (r : Row) (k : String) : JVal := (lookupJ r k).getD .nan

/-- Python dict assignment `d[k] = v`: update in place, else append. -/
def setKey : Row → String → JVal → Row
  | [], k, v => [(k, v)]
  | (k2, v2) :: rest, k, v =>
    if k2 = k then (k, v) :: rest else (k2, v2) :: setKey rest k v

/-- Python `del d[k]` (keys are unique in a dict, so removing every
occurrence agrees with removing the one entry). -/
def delKey : Row → String → Row
  | [], _ => []
  | (k2, v2) :: rest, k =>
    if k2 = k then delKey rest k else (k2, v2) :: delKey rest k

/-- A dataframe built from these rows has column `k` iff some row binds it
(`pd.DataFrame` takes the union of the dicts' keys as columns). -/
def hasCol (df : List Row) (k : String) : Bool :=
  df.any (fun r => (lookupJ r k).isSome)

/-- Selecting columns `ks` raises `KeyError` when one is absent. -/
def requireCols (df : List Row) : List String → Except PyErr Unit
  | [] => .ok ()
  | k :: ks => if hasCol df k then requireCols df ks else .error (.keyError k)

/-- Effectful map over a list (`.apply` of a fallible function): the first
raised exception aborts the whole operation. -/
def mapE {α β : Type} (f : α → Except PyErr β) : List α → Except PyErr (List β)
  | [] => .ok []
  | x :: xs =>
    match f x with
    | .error e => .error e
    | .ok y =>
      match mapE f xs with
      | .error e => .error e
      | .ok ys => .ok (y :: ys)

/-! ## Integer rendering (Python `str`) -/

/-- The decimal digit character for `d` (callers keep `d < 10`). -/
def digitChar : Nat → Char
  | 0 => '0' | 1 => '1' | 2 => '2' | 3 => '3' | 4 => '4'
  | 5 => '5' | 6 => '6' | 7 => '7' | 8 => '8' | _ => '9'

/-- Decimal digit value of a character (callers keep it a digit). -/
def digitVal (c : Char) : Nat := c.toNat - 48

def isDigitC (c : Char) : Bool := '0' ≤ c && c ≤ '9'

/-- Big-endian decimal digits of `n`, with `fuel ≥ n` steps available.
The fuel makes the recursion structural so that terms reduce. -/
def digitsGo (fuel n : Nat) : List Nat :=
  match fuel with
  | 0 => [n % 10]
  | f + 1 => if n < 10 then [n] else digitsGo f (n / 10) ++ [n % 10]

def natChars (n : Nat) : List Char := (digitsGo n n).map digitChar

/-- Python `str` of an integer, as characters. -/
def renderInt (i : Int) : List Char :=
  if i < 0 then '-' :: natChars i.natAbs else natChars i.natAbs

/-- `", "`-separated renderings of the integers. -/
def sepInts : List Int → List Char
  | [] => []
  | [x] => renderInt x
  | x :: y :: rest => renderInt x ++ ',' :: ' ' :: sepInts (y :: rest)

/-- Python `str` of a list of integers, e.g. `[1, 2, 3]`. -/
def renderIntList (xs : List Int) : List Char := '[' :: sepInts xs ++ [']']

/-- Python `str` of a tuple of integers; a 1-tuple renders as `(1,)`. -/
def renderIntTuple : List Int → List Char
  | [x] => '(' :: renderInt x ++ [',', ')']
  | xs => '(' :: sepInts xs ++ [')']

/-- Python `str(x)` for the values this program stringifies.  A string is
returned verbatim, numbers and int containers render canonically, NaN
renders as `nan` (which then fails to parse as a literal, matching
`ast.literal_eval(str(nan))`).  The remaining constructors never reach
`str` in the modeled code; they render as an unparseable placeholder. -/
def pyStr : JVal → String
  | .str s => s
  | .num i => String.mk (renderInt i)
  | .ilist xs => String.mk (renderIntList xs)
  | .ituple xs => String.mk (renderIntTuple xs)
  | .nan => "nan"
  | _ => "<object>"

/-! ## `ast.literal_eval` on the node-id fragment -/

def skipWs : List Char → List Char
  | [] => []
  | c :: cs => if c = ' ' then skipWs cs else c :: cs

/-- Longest digit prefix and the remainder. -/
def takeDigits : List Char → List Char × List Char
  | [] => ([], [])
  | c :: cs =>
    if isDigitC c then
      match takeDigits cs with
      | (ds, r) => (c :: ds, r)
    else ([], c :: cs)

def natOfDigits (ds : List Char) : Nat :=
  ds.foldl (fun a c => a * 10 + digitVal c) 0

/-- Numeric value of a big-endian digit list (specification side). -/
def valOfDigits (ds : List Nat) : Nat :=
  ds.foldl (fun a d => a * 10 + d) 0

/-- The continuation after a rendered number must not start with another
digit (it starts with a separator, a closer, or is empty). -/
def headNotDigit : List Char → Bool
  | [] => true
  | c :: _ => !(isDigitC c)

/-- Closing a bracketed display: `]` yields a list; a parenthesized single
item without a comma is just that item, otherwise a tuple. -/
def closeWith (closer : Char) (items : List Int) (sawComma : Bool) : JVal :=
  if closer = ']' then .ilist items
  else
    match items, sawComma with
    | [x], false => .num x
    | _, _ => .ituple items

/-- Parser mode: a toplevel literal, or the items of a display opened with
`[` or `(`, with the items seen so far (reversed) and whether a comma has
been consumed. -/
inductive PMode where
  | lit : PMode
  | items (closer : Char) (acc : List Int) (sawComma : Bool) : PMode

/-- Recursive-descent evaluator for the literal fragment.  Structural in
`fuel`; `literal_eval` supplies ample fuel. -/
def parseP : Nat → PMode → List Char → Except PyErr (JVal × List Char)
  | 0, _, _ => .error .valueError
  | fuel + 1, .lit, cs =>
    match skipWs cs with
    | [] => .error .valueError
    | c :: rest =>
      if c = '-' then
        match takeDigits (skipWs rest) with
        | ([], _) => .error .valueError
        | (ds, r) => .ok (.num (-(natOfDigits ds : Int)), r)
      else if isDigitC c then
        match takeDigits (c :: rest) with
        | (ds, r) => .ok (.num ((natOfDigits ds : Int)), r)
      else if c = '[' then parseP fuel (.items ']' [] false) rest
      else if c = '(' then parseP fuel (.items ')' [] false) rest
      else .error .valueError
  | fuel + 1, .items closer acc sawComma, cs =>
    match skipWs cs with
    | [] => .error .valueError
    | c :: rest =>
      if c = closer then .ok (closeWith closer acc.reverse sawComma, rest)
      else
        match parseP fuel .lit (c :: rest) with
        | .error e => .error e
        | .ok (.num n, r2) =>
          (match skipWs r2 with
           | ',' :: r3 => parseP fuel (.items closer (n :: acc) true) r3
           | c2 :: r3 =>
             if c2 = closer then
               .ok (closeWith closer (n :: acc).reverse sawComma, r3)
             else .error .valueError
           | [] => .error .valueError)
        | .ok (_, _) => .error .valueError

/-- `ast.literal_eval` on the modeled fragment: parse one literal and
require only whitespace afterwards. -/
def literal_eval (s : String) : Except PyErr JVal :=
  match parseP (2 * s.length + 4) .lit s.data with
  | .ok (v, rest) => if skipWs rest = [] then .ok v else .error .valueError
  | .error e => .error e

/-- `convert_list_string(list_string)`: `ast.literal_eval(str(list_string))`
(src/utils/data_processing.py:97-104). -/
def convert_list_string (list_string : JVal) : Except PyErr JVal :=
  literal_eval (pyStr list_string)

/-! ## Overpass query builder (src/utils/data_processing.py:13-38) -/

/-- The bounding box in the OSM convention, already stringified: order is
(south, west, north, east), as the source docstring states. -/
structure BBox where
  s : String
  w : String
  n : String
  e : String
  deriving DecidableEq, Repr

/-- One filter clause, the `%`-interpolation of
`'%s["%s" ~ "%s"](%s,%s,%s,%s);'` with `(obj, entity, tag, bbox[0..3])`. -/
def overpassClause (obj entity tag : String) (bb : BBox) : String :=
  obj ++ "[\"" ++ entity ++ "\" ~ \"" ++ tag ++ "\"](" ++ bb.s ++ "," ++
    bb.w ++ "," ++ bb.n ++ "," ++ bb.e ++ ");"

/-- `generate_overpass_query(tags, objects, osm_bbox, entity)`: a nested
loop, tags outer and objects inner, appending one clause per pair onto the
header, then the closing directives. -/
def generate_overpass_query (tags objects : List String) (osm_bbox : BBox)
    (entity : String) : String :=
  let q := tags.foldl
    (fun acc tag => objects.foldl
      (fun acc2 obj => acc2 ++ overpassClause obj entity tag osm_bbox) acc)
    "[out:json][timeout:60];("
  q ++ ");out body;>;out skel qt;"

/-! ## Fetch-or-cache loader (src/utils/data_processing.py:41-92) -/

/-- The derived cache file path:
`'data/osm_data_{}_osm_objects_{}.csv'.format(bbox_string, osm_object_string)`
where both parts are `'_'.join` of the already-stringified components. -/
def cachePath (osm_bbox osm_objects : List String) : String :=
  "data/osm_data_" ++ String.intercalate "_" osm_bbox ++ "_osm_objects_" ++
    String.intercalate "_" osm_objects ++ ".csv"

/-- Tag flattening (lines 79-85): when the element carries a nested `tags`
mapping, every tag key/value is assigned onto the element itself (tag
values are strings in Overpass responses), then the `tags` key is deleted;
elements without a `tags` mapping pass through unchanged. -/
def flattenElem (e : Row) : Row :=
  match lookupJ e "tags" with
  | some (.obj kvs) =>
    delKey (kvs.foldl (fun acc kv => setKey acc kv.1 (.str kv.2)) e) "tags"
  | _ => e

/-- What one `get_osm_data` call returned and did: the resulting table,
whether the Overpass endpoint was contacted, and the cache file written
(path and content), if any. -/
structure LoaderResult where
  table : List Row
  httpCalled : Bool
  fileWritten : Option (String × List Row)
  deriving DecidableEq, Repr

/-- `get_osm_data(compactOverpassQLstring, osm_bbox, osm_objects)`:
read the cache file if it exists; otherwise fetch, take the `elements`
array, flatten tags, build the dataframe and write it to the cache file
(`osm_df.to_csv` at line 90 - executed although the comment above it says
the csv write was removed). -/
def get_osm_data (compactOverpassQLstring : String)
    (osm_bbox osm_objects : List String)
    (fs : String → Option (List Row)) (http : String → List Row) :
    LoaderResult :=
  let path := cachePath osm_bbox osm_objects
  match fs path with
  | some tbl => { table := tbl, httpCalled := false, fileWritten := none }
  | none =>
    let elems := (http compactOverpassQLstring).map flattenElem
    { table := elems, httpCalled := true, fileWritten := some (path, elems) }

/-! ## Way/node join (src/utils/data_processing.py:111-134) -/

def rowTypeIs (t : String) (r : Row) : Bool :=
  decide (lookupJ r "type" = some (.str t))

/-- `pd.Series` of a cell value, as (index, value) pairs: a container
yields one entry per element indexed by position, a mapping is indexed by
its keys, and a scalar yields a single entry at index 0.  `.stack()` then
keeps exactly these entries. -/
def seriesOf : JVal → List (JVal × JVal)
  | .ilist xs => xs.enum.map (fun p => (.num (p.1 : Int), .num p.2))
  | .ituple xs => xs.enum.map (fun p => (.num (p.1 : Int), .num p.2))
  | .obj kvs => kvs.map (fun p => (.str p.1, .str p.2))
  | v => [(.num 0, v)]

/-- A joined row: way id and way type, position of the node in the way,
then the matched node's id, lat and lon (the `nodes` key column is
dropped after the merge). -/
def mkJoinRow (wid sn nid lat lon : JVal) : Row :=
  [("way_id", wid), ("type", .str "way"), ("sample_num", sn), ("id", nid),
   ("lat", lat), ("lon", lon)]

/-- `extend_ways_to_node_view(osmdf)`: split into way and node rows,
parse each way's `nodes` string with `convert_list_string`, expand to one
row per (way, position), then inner-merge against the node rows on node
id (pandas keeps left order; rows without a match are dropped, a match
contributes one row per matching node row). Column selection raises
`KeyError` when a required column is missing from the frame. -/
def extend_ways_to_node_view (osmdf : List Row) : Except PyErr (List Row) :=
  match requireCols osmdf ["type", "id", "nodes", "lat", "lon"] with
  | .error e => .error e
  | .ok _ =>
    let ways := osmdf.filter (rowTypeIs "way")
    let nodes := osmdf.filter (rowTypeIs "node")
    match mapE (fun r =>
        match convert_list_string (getCol r "nodes") with
        | .error e => .error e
        | .ok nv => .ok (getCol r "id", nv)) ways with
    | .error e => .error e
    | .ok parsedWays =>
      let stacked := parsedWays.flatMap
        (fun wv => (seriesOf wv.2).map (fun sv => (wv.1, sv.1, sv.2)))
      .ok (stacked.flatMap (fun t =>
        (nodes.filter (fun nr => decide (getCol nr "id" = t.2.2))).map (fun nr =>
          mkJoinRow t.1 t.2.1 (getCol nr "id") (getCol nr "lat")
            (getCol nr "lon"))))

/-- `extend_ways_to_node_view` works on copies (`.query(...)` and column
selection return new frames), so its argument is unchanged after the
call. -/
def extend_arg_after (osmdf : List Row) : List Row := osmdf

/-! ## Geometry assembly (src/utils/data_processing.py:137-157) -/

/-- The scalar payload of a cell fed into `zip`/`Point` (container-valued
cells never reach this code path in the program). -/
def toScalar : JVal → Except PyErr JScalar
  | .nan => .ok .nanS
  | .num n => .ok (.numS n)
  | .str s => .ok (.strS s)
  | _ => .error .typeError

/-- `Point((lon, lat))`: shapely requires numeric coordinates (NaN is a
float and is accepted). -/
def pointOf (lon lat : JVal) : Except PyErr JVal :=
  match toScalar lon, toScalar lat with
  | .error e, _ => .error e
  | _, .error e => .error e
  | .ok (.strS _), _ => .error .typeError
  | _, .ok (.strS _) => .error .typeError
  | .ok x, .ok y => .ok (.point (x, y))

/-- `coords_df_to_geopandas_points(osmdf)`: assigns a new `Coordinates`
column on the argument itself - `osmdf['Coordinates'] = list(zip(...))`
then `.apply(Point)` - and wraps the same (mutated) frame as a
GeoDataFrame.  Attribute access `osmdf.lon` / `osmdf.lat` raises when the
column is absent. -/
def coords_df_to_geopandas_points (osmdf : List Row) :
    Except PyErr (List Row) :=
  match requireCols osmdf ["lon", "lat"] with
  | .error e => .error e
  | .ok _ =>
    mapE (fun r =>
      match pointOf (getCol r "lon") (getCol r "lat") with
      | .error e => .error e
      | .ok p => .ok (setKey r "Coordinates" p)) osmdf

/-- State of the argument after `coords_df_to_geopandas_points` returns:
the column assignments happen on the caller's frame, so on success the
argument aliases the returned table. -/
def coords_arg_after (osmdf : List Row) : List Row :=
  match coords_df_to_geopandas_points osmdf with
  | .ok r => r
  | .error _ => osmdf

/-- `points_df['geometry'] = points_df['Coordinates'].apply(lambda x: x.coords[0])`:
each Point cell becomes its coordinate tuple; a non-Point cell raises. -/
def addGeometry (r : Row) : Except PyErr Row :=
  match getCol r "Coordinates" with
  | .point p => .ok (setKey r "geometry" (.ctuple p))
  | _ => .error .typeError

/-- `Polygon(coords)`: shapely rejects rings with fewer than 3 coordinate
tuples; an unclosed ring is closed by repeating the first point; a closed
input of fewer than 4 points is likewise rejected (GEOS ring arity). -/
def mkPolygon (coords : List (JScalar × JScalar)) :
    Except PyErr (List (JScalar × JScalar)) :=
  match coords with
  | [] => .error .valueError
  | c :: rest =>
    if (c :: rest).length < 3 then .error .valueError
    else if (c :: rest).getLast? = some c then
      if (c :: rest).length < 4 then .error .valueError else .ok (c :: rest)
    else .ok ((c :: rest) ++ [c])

/-- Group keys in first-occurrence order, deduplicated. -/
def dedupGo : List JVal → List JVal → List JVal
  | [], _ => []
  | k :: rest, seen =>
    if k ∈ seen then dedupGo rest seen else k :: dedupGo rest (k :: seen)

/-- `groupby` sorts its keys; way ids are integers (grouping on anything
else is outside the program's data domain). -/
def keyInts : List JVal → Except PyErr (List Int)
  | [] => .ok []
  | .num n :: rest => (keyInts rest).map (n :: ·)
  | _ :: _ => .error .typeError

def insertInt (x : Int) : List Int → List Int
  | [] => [x]
  | y :: ys => if x ≤ y then x :: y :: ys else y :: insertInt x ys

def sortInts : List Int → List Int
  | [] => []
  | x :: xs => insertInt x (sortInts xs)

/-- `geopandas_points_to_poly(points_df)`: assign the `geometry` column on
the argument (mutating it), then group by `way_id` (sorted keys) and build
one polygon per way from its coordinate tuples in row order, producing a
frame with one row per way id. -/
def polyOfGroup (withGeom : List Row) (k : Int) : Except PyErr Row :=
  match mapE (fun r =>
      match getCol r "geometry" with
      | .ctuple p => Except.ok p
      | _ => Except.error .typeError)
    (withGeom.filter (fun r => decide (getCol r "way_id" = .num k))) with
  | .error e => .error e
  | .ok coords =>
    match mkPolygon coords with
    | .error e => .error e
    | .ok ring => .ok [("way_id", JVal.num k), ("geometry", JVal.poly ring)]

def geopandas_points_to_poly (points_df : List Row) :
    Except PyErr (List Row) :=
  match mapE addGeometry points_df with
  | .error e => .error e
  | .ok withGeom =>
    match requireCols withGeom ["way_id"] with
    | .error e => .error e
    | .ok _ =>
      match keyInts (dedupGo (withGeom.map (getCol · "way_id")) []) with
      | .error e => .error e
      | .ok keys => mapE (polyOfGroup withGeom) (sortInts keys)

/-- State of the argument after `geopandas_points_to_poly` returns or
raises past the `geometry` assignment: the assignment happens on the
caller's frame before grouping. -/
def poly_arg_after (points_df : List Row) : List Row :=
  match mapE addGeometry points_df with
  | .ok r => r
  | .error _ => points_df

/-- The reconstruction pipeline applied to a parsed `elements` array: tag
flattening (as in `get_osm_data`'s fetch path), then join, points and
polygons. -/
def run_pipeline (elements : List Row) : Except PyErr (List Row) :=
  match extend_ways_to_node_view (elements.map flattenElem) with
  | .error e => .error e
  | .ok joined =>
    match coords_df_to_geopandas_points joined with
    | .error e => .error e
    | .ok pts => geopandas_points_to_poly pts

/-! ## Nominatim reverse geocode (src/utils/data_processing.py:270-293) -/

/-- The names bound at module level by the imports of
`src/utils/data_processing.py` (lines 1-7). -/
def module_imported_names : List String :=
  ["pd", "requests", "os", "ast", "geopandas", "Point", "Polygon", "plt"]

/-- Resolving a module-level name: `NameError` when it was never bound. -/
def resolveName (n : String) : Except PyErr Unit :=
  if n ∈ module_imported_names then .ok () else .error (.nameError n)

/-- `reverse_geo_code(osm_type, osm_id)` with the Nominatim response JSON
made explicit.  The body first evaluates `json.loads(nom_res.text)`, which
resolves the module-level name `json`; the intended row substitutes the
string `'NA'` for a missing `lat`/`lon` key and carries the supplied
`osm_id`. -/
def reverse_geo_code (osm_type osm_id : String) (respJson : Row) :
    Except PyErr Row :=
  let _query := "osm_type=" ++ osm_type ++ "&osm_id=" ++ osm_id ++ "&format=json"
  match resolveName "json" with
  | .error e => .error e
  | .ok _ =>
    let lat := (lookupJ respJson "lat").getD (.str "NA")
    let lon := (lookupJ respJson "lon").getD (.str "NA")
    .ok [("osm_id", .str osm_id), ("lat", lat), ("lon", lon)]

/-! ## Specification-side definitions and concrete fixtures -/

/-- Concatenation of a list of strings (specification side, for stating
what the query-builder loop accumulates). -/
def concatAll : List String → String
  | [] => ""
  | x :: xs => x ++ concatAll xs

/-- The filter clauses the specification expects: one per (tag, object)
pair, tags outer, objects inner. -/
def overpassClauses (tags objects : List String) (bb : BBox)
    (entity : String) : List String :=
  tags.flatMap (fun tag => objects.map (fun obj => overpassClause obj entity tag bb))

/-- The values `literal_eval` can produce: integers and flat integer
lists/tuples. -/
def ParseableV : JVal → Prop
  | .num _ => True
  | .ilist _ => True
  | .ituple _ => True
  | _ => False

/-- Parser fuel sufficient for re-parsing the rendering of `v`. -/
def fuelOfV : JVal → Nat
  | .num _ => 1
  | .ilist xs => xs.length + 2
  | .ituple xs => xs.length + 3
  | _ => 0

/-- Does the string parse as a list literal of integers? -/
def isListIntLiteral (s : String) : Bool :=
  match literal_eval s with
  | .ok (.ilist _) => true
  | _ => false

/-- A node element row as fetched from Overpass. -/
def nodeRow (t : Int × Int × Int) : Row :=
  [("type", .str "node"), ("id", .num t.1), ("lat", .num t.2.1),
   ("lon", .num t.2.2)]

/-- A way element row whose `nodes` cell is the string rendering of its
node-id list (the form the pipeline receives it in). -/
def wayRow (wid : Int) (ns : List Int) : Row :=
  [("type", .str "way"), ("id", .num wid),
   ("nodes", .str (String.mk (renderIntList ns)))]

/-- The mock Overpass response of the specification: three nodes and one
closed way `[1, 2, 3, 1]`. -/
def mockElems : List Row :=
  [[("type", .str "node"), ("id", .num 1), ("lat", .num 0), ("lon", .num 0)],
   [("type", .str "node"), ("id", .num 2), ("lat", .num 0), ("lon", .num 1)],
   [("type", .str "node"), ("id", .num 3), ("lat", .num 1), ("lon", .num 1)],
   [("type", .str "way"), ("id", .num 100), ("nodes", .str "[1, 2, 3, 1]")]]

/-- A batch whose way references node 12, which has no node element. -/
def batchGap : List Row :=
  [[("type", .str "node"), ("id", .num 10), ("lat", .num 0), ("lon", .num 0)],
   [("type", .str "node"), ("id", .num 11), ("lat", .num 1), ("lon", .num 1)],
   [("type", .str "way"), ("id", .num 5), ("nodes", .str "[10, 11, 12]")]]

/-- A batch whose way's `nodes` string is a tuple literal, not a list
literal. -/
def batchTuple : List Row :=
  [[("type", .str "node"), ("id", .num 20), ("lat", .num 2), ("lon", .num 3)],
   [("type", .str "node"), ("id", .num 21), ("lat", .num 4), ("lon", .num 5)],
   [("type", .str "way"), ("id", .num 6), ("nodes", .str "(20, 21)")]]

/-- A one-row joined table, input to the points stage. -/
def pointsInput : List Row :=
  [[("way_id", .num 1), ("type", .str "way"), ("sample_num", .num 0),
    ("id", .num 10), ("lat", .num 7), ("lon", .num 8)]]

/-- A way row whose `nodes` string is malformed (unbalanced bracket). -/
def wayBad : Row := [("type", .str "way"), ("id", .num 7), ("nodes", .str "[1, 2")]

/-- A batch containing only `wayBad`. -/
def batchBad : List Row := [wayBad]

/-- An element whose nested tag mapping uses the key `tags` itself. -/
def tagShadowElem : Row :=
  [("type", .str "node"), ("id", .num 1), ("tags", .obj [("tags", "x")])]

/-- The shape of a row after the points stage, for a way `wid`: the joined
row extended with its `Coordinates` point, (lon, lat) order. -/
def pointsRow (wid sn nid la lo : Int) : Row :=
  mkJoinRow (.num wid) (.num sn) (.num nid) (.num la) (.num lo) ++
    [("Coordinates", .point (.numS lo, .numS la))]

/-- The shape of a row after the `geometry` assignment of the polygon
stage. -/
def geomRow (wid sn nid la lo : Int) : Row :=
  pointsRow wid sn nid la lo ++ [("geometry", .ctuple (.numS lo, .numS la))]

/-- A filesystem with no cache file anywhere. -/
def fsMiss : String → Option (List Row) := fun _ => none

/-- An Overpass endpoint returning one node element carrying a tag. -/
def httpMock : String → List Row := fun _ =>
  [[("type", .str "node"), ("id", .num 1), ("lat", .num 0), ("lon", .num 0),
    ("tags", .obj [("amenity", "fuel")])]]

/-- A cached table used by the cache-hit fixtures. -/
def cachedTbl : List Row :=
  [[("type", .str "node"), ("id", .num 9), ("lat", .num 4), ("lon", .num 4)]]

/-- A filesystem holding `cachedTbl` at the cache path derived from bbox
`0_1_2_3` and objects `way`. -/
def fsHit : String → Option (List Row) := fun p =>
  if p = cachePath ["0", "1", "2", "3"] ["way"] then some cachedTbl else none

/-! ## General helper lemmas -/

theorem mapE_ok_of_forall {α β : Type} (f : α → Except PyErr β)
    (g : α → β) (l : List α) (h : ∀ x ∈ l, f x = .ok (g x)) :
    mapE f l = .ok (l.map g) := by
  induction l with
  | nil => rfl
  | cons x xs ih =>
    have hx := h x (by simp)
    have ihh := ih (fun y hy => h y (by simp [hy]))
    simp [mapE, hx, ihh]

theorem mapE_error_of_mem {α β : Type} (f : α → Except PyErr β)
    (l : List α) (x : α) (e0 : PyErr) (hx : x ∈ l) (hf : f x = .error e0) :
    ∃ e, mapE f l = .error e := by
  induction l with
  | nil => cases hx
  | cons y ys ih =>
    rcases List.mem_cons.mp hx with rfl | hmem
    · exact ⟨e0, by simp [mapE, hf]⟩
    · cases hy : f y with
      | error e1 => exact ⟨e1, by simp [mapE, hy]⟩
      | ok b =>
        obtain ⟨e, he⟩ := ih hmem
        rcases hv : mapE f ys with e2 | v2
        · exact ⟨e2, by simp [mapE, hy, hv]⟩
        · exact absurd (hv ▸ he) (by simp)

/-! ## C2: query builder lemmas -/

theorem concatAll_append (a b : List String) :
    concatAll (a ++ b) = concatAll a ++ concatAll b := by
  induction a with
  | nil => simp [concatAll, String.empty_append]
  | cons x xs ih => simp [concatAll, ih, String.append_assoc]

theorem foldl_append_str {α : Type} (l : List α) (f : α → String)
    (acc : String) :
    l.foldl (fun a x => a ++ f x) acc = acc ++ concatAll (l.map f) := by
  induction l generalizing acc with
  | nil => simp [concatAll, String.append_empty]
  | cons x xs ih => simp [concatAll, ih, String.append_assoc]

theorem concatAll_flatMap {α : Type} (l : List α) (h : α → List String) :
    concatAll (l.map (fun t => concatAll (h t))) = concatAll (l.flatMap h) := by
  induction l with
  | nil => rfl
  | cons x xs ih => simp [concatAll, List.flatMap_cons, concatAll_append, ih]

theorem length_overpassClauses (tags objects : List String) (bb : BBox)
    (entity : String) :
    (overpassClauses tags objects bb entity).length =
      tags.length * objects.length := by
  unfold overpassClauses
  induction tags with
  | nil => simp
  | cons t ts ih =>
    simp only [List.flatMap_cons, List.length_append, List.length_map,
      List.length_cons]
    rw [ih, Nat.succ_mul]
    omega

/-- C2: for non-empty tag and object lists and any bounding box,
`generate_overpass_query` returns the `[out:json][timeout:60];( ... );out
body;>;out skel qt;` wrapper around exactly |tags| x |objects| filter
clauses, emitted in tag-then-object order, each interpolating the bbox
components in (south, west, north, east) order. -/
theorem C2_generate_overpass_query (tags objects : List String) (bb : BBox)
    (entity : String) (htags : tags ≠ []) (hobjects : objects ≠ []) :
    generate_overpass_query tags objects bb entity =
      "[out:json][timeout:60];(" ++
        concatAll (overpassClauses tags objects bb entity) ++
        ");out body;>;out skel qt;" ∧
    (overpassClauses tags objects bb entity).length =
      tags.length * objects.length := by
  refine ⟨?_, length_overpassClauses tags objects bb entity⟩
  unfold generate_overpass_query
  have hinner : (fun (acc : String) (tag : String) => objects.foldl
      (fun acc2 obj => acc2 ++ overpassClause obj entity tag bb) acc) =
      fun acc tag =>
        acc ++ concatAll (objects.map (fun obj => overpassClause obj entity tag bb)) := by
    funext acc tag
    exact foldl_append_str objects _ acc
  rw [hinner, foldl_append_str tags
    (fun tag => concatAll (objects.map (fun obj => overpassClause obj entity tag bb))),
    concatAll_flatMap]
  rfl

theorem C2_generate_overpass_query_witness :
    (["fuel"] : List String) ≠ [] ∧ (["node", "way"] : List String) ≠ [] ∧
      (generate_overpass_query ["fuel"] ["node", "way"]
          ⟨"-41.3", "174.7", "-41.2", "174.8"⟩ "amenity" =
        "[out:json][timeout:60];(" ++
          concatAll (overpassClauses ["fuel"] ["node", "way"]
            ⟨"-41.3", "174.7", "-41.2", "174.8"⟩ "amenity") ++
          ");out body;>;out skel qt;" ∧
      (overpassClauses ["fuel"] ["node", "way"]
          ⟨"-41.3", "174.7", "-41.2", "174.8"⟩ "amenity").length = 1 * 2) :=
  ⟨by decide, by decide,
    C2_generate_overpass_query ["fuel"] ["node", "way"]
      ⟨"-41.3", "174.7", "-41.2", "174.8"⟩ "amenity" (by decide) (by decide)⟩

/-! ## C1: the mock-response pipeline -/

/-- C1: on the specification's mock Overpass response (nodes 1-3 and way
100 with nodes `[1, 2, 3, 1]`), the full pipeline - tag flattening, way
expansion and node join, point construction, polygon grouping - produces
exactly one polygon row, keyed by way id 100, whose ring is
[(0,0), (1,0), (1,1), (0,0)] in (lon, lat) order. -/
theorem C1_pipeline_mock :
    run_pipeline mockElems =
      .ok [[("way_id", .num 100),
            ("geometry", .poly [(.numS 0, .numS 0), (.numS 1, .numS 0),
                                (.numS 1, .numS 1), (.numS 0, .numS 0)])]] := rfl

/-! ## C4: the loader writes the cache file on a miss -/

/-- C4 (refuting the claim that persistence is skipped): on a cache miss
`get_osm_data` does write the flattened element table to the derived
cache path - `osm_df.to_csv(osm_filename, ...)` at line 90 runs although
the comment above it says the csv write was removed. -/
theorem C4_cache_written_on_miss :
    (get_osm_data "q" ["0", "1", "2", "3"] ["way"] fsMiss httpMock).fileWritten =
      some ("data/osm_data_0_1_2_3_osm_objects_way.csv",
        [[("type", .str "node"), ("id", .num 1), ("lat", .num 0),
          ("lon", .num 0), ("amenity", .str "fuel")]]) := rfl

/-! ## C8: cache hits -/

/-- C8: when a file exists at the derived cache path, `get_osm_data`
returns its parsed contents as-is, performs no HTTP request, writes
nothing, and the result does not depend on the query string supplied. -/
theorem C8_cache_hit (q q2 : String) (osm_bbox osm_objects : List String)
    (fs : String → Option (List Row)) (http : String → List Row)
    (tbl : List Row) (h : fs (cachePath osm_bbox osm_objects) = some tbl) :
    get_osm_data q osm_bbox osm_objects fs http =
      { table := tbl, httpCalled := false, fileWritten := none } ∧
    get_osm_data q osm_bbox osm_objects fs http =
      get_osm_data q2 osm_bbox osm_objects fs http := by
  have h1 : get_osm_data q osm_bbox osm_objects fs http =
      { table := tbl, httpCalled := false, fileWritten := none } := by
    simp [get_osm_data, h]
  have h2 : get_osm_data q2 osm_bbox osm_objects fs http =
      { table := tbl, httpCalled := false, fileWritten := none } := by
    simp [get_osm_data, h]
  exact ⟨h1, h1.trans h2.symm⟩

theorem C8_cache_hit_witness :
    fsHit (cachePath ["0", "1", "2", "3"] ["way"]) = some cachedTbl ∧
      (get_osm_data "query one" ["0", "1", "2", "3"] ["way"] fsHit httpMock =
        { table := cachedTbl, httpCalled := false, fileWritten := none } ∧
      get_osm_data "query one" ["0", "1", "2", "3"] ["way"] fsHit httpMock =
        get_osm_data "query two" ["0", "1", "2", "3"] ["way"] fsHit httpMock) :=
  ⟨by decide,
    C8_cache_hit "query one" "query two" ["0", "1", "2", "3"] ["way"]
      fsHit httpMock cachedTbl (by decide)⟩

/-! ## C6: reverse_geo_code -/

/-- C6 (code bug): every call of `reverse_geo_code` fails with
`NameError` on `json` - the module never imports `json`, so
`json.loads(nom_res.text)` (line 289) raises before the `'NA'` sentinel
logic can run, for any response JSON, with or without a `lat` key. -/
theorem C6_reverse_geo_code_name_error (osm_type osm_id : String)
    (respJson : Row) :
    reverse_geo_code osm_type osm_id respJson = .error (.nameError "json") := rfl

/-! ## Digit and rendering lemmas -/

theorem isDigitC_digitChar (d : Nat) : isDigitC (digitChar d) = true := by
  unfold digitChar
  split <;> decide

theorem digitVal_digitChar (d : Nat) (h : d < 10) :
    digitVal (digitChar d) = d := by
  interval_cases d <;> decide

theorem digit_ne (c c2 : Char) (h : isDigitC c = true)
    (h2 : isDigitC c2 = false) : c ≠ c2 := by
  intro he
  rw [he, h2] at h
  cases h

theorem digitsGo_lt10 (fuel n : Nat) : ∀ d ∈ digitsGo fuel n, d < 10 := by
  induction fuel generalizing n with
  | zero => intro d hd; simp [digitsGo] at hd; omega
  | succ f ih =>
    intro d hd
    by_cases h : n < 10
    · simp [digitsGo, h] at hd; omega
    · simp [digitsGo, h] at hd
      rcases hd with hd | hd
      · exact ih _ d hd
      · omega

theorem valOfDigits_append_digit (l : List Nat) (d : Nat) :
    valOfDigits (l ++ [d]) = valOfDigits l * 10 + d := by
  simp [valOfDigits, List.foldl_append]

theorem valOfDigits_digitsGo (fuel n : Nat) (h : n ≤ fuel) :
    valOfDigits (digitsGo fuel n) = n := by
  induction fuel generalizing n with
  | zero =>
    have : n = 0 := by omega
    subst this
    decide
  | succ f ih =>
    by_cases hn : n < 10
    · simp [digitsGo, hn, valOfDigits]
    · have hfuel : n / 10 ≤ f := by omega
      simp [digitsGo, hn, valOfDigits_append_digit, ih _ hfuel]
      omega

theorem foldl_map_digitChar (ds : List Nat) (h : ∀ d ∈ ds, d < 10) :
    ∀ a, (ds.map digitChar).foldl (fun a c => a * 10 + digitVal c) a =
      ds.foldl (fun a d => a * 10 + d) a := by
  induction ds with
  | nil => intro a; rfl
  | cons d rest ih =>
    intro a
    simp only [List.map_cons, List.foldl_cons]
    rw [digitVal_digitChar d (h d (by simp))]
    exact ih (fun x hx => h x (by simp [hx])) _

theorem natOfDigits_map_digitChar (ds : List Nat) (h : ∀ d ∈ ds, d < 10) :
    natOfDigits (ds.map digitChar) = valOfDigits ds :=
  foldl_map_digitChar ds h 0

theorem natOfDigits_natChars (n : Nat) : natOfDigits (natChars n) = n := by
  unfold natChars
  rw [natOfDigits_map_digitChar _ (digitsGo_lt10 n n)]
  exact valOfDigits_digitsGo n n le_rfl



theorem natChars_ne_nil (n : Nat) : natChars n ≠ [] := by
  unfold natChars
  cases hf : digitsGo n n with
  | nil =>
    exfalso
    cases n with
    | zero => simp [digitsGo] at hf
    | succ m =>
      unfold digitsGo at hf
      split at hf <;> simp_all
  | cons c rest => simp

theorem natChars_digits (n : Nat) : ∀ c ∈ natChars n, isDigitC c = true := by
  intro c hc
  obtain ⟨d, _, rfl⟩ := List.mem_map.mp hc
  exact isDigitC_digitChar d

theorem takeDigits_of_digits (ds rest : List Char)
    (h : ∀ c ∈ ds, isDigitC c = true) (hr : headNotDigit rest = true) :
    takeDigits (ds ++ rest) = (ds, rest) := by
  induction ds with
  | nil =>
    cases rest with
    | nil => rfl
    | cons c t =>
      simp only [headNotDigit, Bool.not_eq_true'] at hr
      simp [takeDigits, hr]
  | cons c t ih =>
    have hc := h c (by simp)
    have iht := ih (fun x hx => h x (by simp [hx]))
    simp [takeDigits, hc, iht]

theorem skipWs_cons_ne (c : Char) (cs : List Char) (h : c ≠ ' ') :
    skipWs (c :: cs) = c :: cs := by
  simp [skipWs, h]

theorem renderInt_head (i : Int) :
    ∃ c t, renderInt i = c :: t ∧ (c = '-' ∨ isDigitC c = true) := by
  unfold renderInt
  by_cases hi : i < 0
  · exact ⟨'-', natChars i.natAbs, by simp [hi], Or.inl rfl⟩
  · obtain ⟨c, t, hct⟩ := List.exists_cons_of_ne_nil (natChars_ne_nil i.natAbs)
    refine ⟨c, t, by simp [hi, hct], Or.inr ?_⟩
    exact natChars_digits i.natAbs c (by rw [hct]; simp)

theorem renderInt_ne_nil (i : Int) : renderInt i ≠ [] := by
  obtain ⟨c, t, hct, _⟩ := renderInt_head i
  simp [hct]

/-- Parsing the rendering of one integer consumes it exactly, for any
positive fuel, provided the continuation does not begin with a digit. -/
theorem parseP_renderInt (i : Int) (rest : List Char) (F : Nat)
    (hrest : headNotDigit rest = true) :
    parseP (F + 1) .lit (renderInt i ++ rest) = .ok (.num i, rest) := by
  by_cases hi : i < 0
  · have hrender : renderInt i = '-' :: natChars i.natAbs := by
      simp [renderInt, hi]
    obtain ⟨c, t, hct⟩ := List.exists_cons_of_ne_nil (natChars_ne_nil i.natAbs)
    have hcdig : isDigitC c = true := natChars_digits _ c (by rw [hct]; simp)
    have hcs : c ≠ ' ' := digit_ne c ' ' hcdig (by decide)
    have htd : takeDigits (natChars i.natAbs ++ rest) = (natChars i.natAbs, rest) :=
      takeDigits_of_digits _ _ (natChars_digits _) hrest
    rw [hrender]
    simp only [parseP, List.cons_append, skipWs_cons_ne '-' _ (by decide)]
    simp only [if_true]
    rw [hct]
    simp only [List.cons_append, skipWs_cons_ne c _ hcs]
    rw [← List.cons_append, ← hct, htd]
    have hne : natChars i.natAbs ≠ [] := natChars_ne_nil _
    cases hnc : natChars i.natAbs with
    | nil => exact absurd hnc hne
    | cons c0 t0 =>
      simp only []
      rw [← hnc, natOfDigits_natChars]
      have : -(i.natAbs : Int) = i := by omega
      rw [this]
  · have hrender : renderInt i = natChars i.natAbs := by
      simp [renderInt, hi]
    obtain ⟨c, t, hct⟩ := List.exists_cons_of_ne_nil (natChars_ne_nil i.natAbs)
    have hcdig : isDigitC c = true := natChars_digits _ c (by rw [hct]; simp)
    have hcs : c ≠ ' ' := digit_ne c ' ' hcdig (by decide)
    have hcm : c ≠ '-' := digit_ne c '-' hcdig (by decide)
    have htd : takeDigits (natChars i.natAbs ++ rest) = (natChars i.natAbs, rest) :=
      takeDigits_of_digits _ _ (natChars_digits _) hrest
    rw [hrender, hct]
    simp only [parseP, List.cons_append, skipWs_cons_ne c _ hcs]
    rw [if_neg hcm, if_pos hcdig]
    rw [← List.cons_append, ← hct, htd]
    rw [natOfDigits_natChars]
    have : (i.natAbs : Int) = i := by omega
    rw [this]



theorem parseP_items_space (F : Nat) (closer : Char) (acc : List Int)
    (sawC : Bool) (w : List Char) :
    parseP (F + 1) (.items closer acc sawC) (' ' :: w) =
      parseP (F + 1) (.items closer acc sawC) w := by
  simp only [parseP]
  rw [show skipWs (' ' :: w) = skipWs w by simp [skipWs]]

theorem parseP_items_close (F : Nat) (closer : Char) (acc : List Int)
    (sawC : Bool) (rest : List Char) (h : closer ≠ ' ') :
    parseP (F + 1) (.items closer acc sawC) (closer :: rest) =
      .ok (closeWith closer acc.reverse sawC, rest) := by
  conv_lhs => rw [parseP]
  rw [skipWs_cons_ne _ _ h]
  simp

theorem parseP_items_step (F : Nat) (closer : Char) (acc : List Int)
    (sawC : Bool) (c0 : Char) (w : List Char) (hc0s : c0 ≠ ' ')
    (hc0cl : c0 ≠ closer) :
    parseP (F + 1) (.items closer acc sawC) (c0 :: w) =
      match parseP F .lit (c0 :: w) with
      | .error e => .error e
      | .ok (.num n, r2) =>
        (match skipWs r2 with
         | ',' :: r3 => parseP F (.items closer (n :: acc) true) r3
         | c2 :: r3 =>
           if c2 = closer then
             .ok (closeWith closer (n :: acc).reverse sawC, r3)
           else .error .valueError
         | [] => .error .valueError)
      | .ok (_, _) => .error .valueError := by
  conv_lhs => rw [parseP]
  rw [skipWs_cons_ne _ _ hc0s]
  simp only []
  rw [if_neg hc0cl]

theorem parseP_items_after_num_comma (F : Nat) (closer : Char)
    (acc : List Int) (sawC : Bool) (c0 : Char) (w w2 : List Char) (n : Int)
    (hc0s : c0 ≠ ' ') (hc0cl : c0 ≠ closer)
    (hlit : parseP F .lit (c0 :: w) = .ok (.num n, ',' :: ' ' :: w2)) :
    parseP (F + 1) (.items closer acc sawC) (c0 :: w) =
      parseP F (.items closer (n :: acc) true) (' ' :: w2) := by
  rw [parseP_items_step F closer acc sawC c0 w hc0s hc0cl, hlit]
  rfl

theorem parseP_items_after_num_close (F : Nat) (closer : Char)
    (acc : List Int) (sawC : Bool) (c0 : Char) (w : List Char) (r3 : List Char)
    (n : Int) (hc0s : c0 ≠ ' ') (hc0cl : c0 ≠ closer)
    (hcl : closer = ']' ∨ closer = ')')
    (hlit : parseP F .lit (c0 :: w) = .ok (.num n, closer :: r3)) :
    parseP (F + 1) (.items closer acc sawC) (c0 :: w) =
      .ok (closeWith closer (n :: acc).reverse sawC, r3) := by
  rw [parseP_items_step F closer acc sawC c0 w hc0s hc0cl, hlit]
  rcases hcl with rfl | rfl <;> rfl

theorem parseP_sepInts (xs : List Int) :
    ∀ (F : Nat) (closer : Char) (acc : List Int) (sawC : Bool)
      (rest : List Char),
      xs.length + 1 ≤ F → (closer = ']' ∨ closer = ')') →
      parseP F (.items closer acc sawC) (sepInts xs ++ closer :: rest) =
        .ok (closeWith closer (acc.reverse ++ xs)
          (sawC || decide (2 ≤ xs.length)), rest) := by
  induction xs with
  | nil =>
    intro F closer acc sawC rest hF hcl
    cases F with
    | zero => omega
    | succ F0 =>
      have hclne : closer ≠ ' ' := by rcases hcl with rfl | rfl <;> decide
      simp only [sepInts, List.nil_append]
      rw [parseP_items_close F0 closer acc sawC rest hclne]
      simp
  | cons x t ih =>
    intro F closer acc sawC rest hF hcl
    cases F with
    | zero => simp at hF
    | succ F0 =>
      obtain ⟨c0, t0, hct, hc0⟩ := renderInt_head x
      have hc0s : c0 ≠ ' ' := by
        rcases hc0 with rfl | h
        · decide
        · exact digit_ne _ _ h (by decide)
      have hc0cl : c0 ≠ closer := by
        rcases hcl with rfl | rfl <;> rcases hc0 with rfl | h
        · decide
        · exact digit_ne _ _ h (by decide)
        · decide
        · exact digit_ne _ _ h (by decide)
      cases t with
      | nil =>
        have hnd : headNotDigit (closer :: rest) = true := by
          rcases hcl with rfl | rfl <;> rfl
        cases F0 with
        | zero => simp at hF
        | succ F1 =>
          have hshape : sepInts [x] ++ closer :: rest =
              c0 :: (t0 ++ closer :: rest) := by
            simp [sepInts, hct]
          have hlit : parseP (F1 + 1) .lit (c0 :: (t0 ++ closer :: rest)) =
              .ok (.num x, closer :: rest) := by
            rw [show c0 :: (t0 ++ closer :: rest) = renderInt x ++ closer :: rest by
              simp [hct]]
            exact parseP_renderInt x _ F1 hnd
          rw [hshape,
            parseP_items_after_num_close (F1 + 1) closer acc sawC c0 _ rest x
              hc0s hc0cl hcl hlit]
          simp [List.reverse_cons]
      | cons y tt =>
        have hF0 : (y :: tt).length + 1 ≤ F0 := by
          simp only [List.length_cons] at hF ⊢
          omega
        cases F0 with
        | zero => simp at hF0
        | succ F1 =>
          have hshape : sepInts (x :: y :: tt) ++ closer :: rest =
              c0 :: (t0 ++ (',' :: ' ' :: (sepInts (y :: tt) ++ closer :: rest))) := by
            simp [sepInts, hct]
          have hlit : parseP (F1 + 1) .lit
              (c0 :: (t0 ++ (',' :: ' ' :: (sepInts (y :: tt) ++ closer :: rest)))) =
              .ok (.num x, ',' :: ' ' :: (sepInts (y :: tt) ++ closer :: rest)) := by
            rw [show c0 :: (t0 ++ (',' :: ' ' :: (sepInts (y :: tt) ++ closer :: rest))) =
                renderInt x ++ (',' :: ' ' :: (sepInts (y :: tt) ++ closer :: rest)) by
              simp [hct]]
            exact parseP_renderInt x _ F1 (by rfl)
          rw [hshape,
            parseP_items_after_num_comma (F1 + 1) closer acc sawC c0 _ _ x
              hc0s hc0cl hlit,
            parseP_items_space F1 closer (x :: acc) true _,
            ih (F1 + 1) closer (x :: acc) true rest hF0 hcl]
          simp [List.reverse_cons, List.append_assoc]



theorem parseP_lit_bracket (F : Nat) (w : List Char) :
    parseP (F + 1) .lit ('[' :: w) = parseP F (.items ']' [] false) w := by
  conv_lhs => rw [parseP]
  rw [skipWs_cons_ne '[' _ (by decide)]
  rfl

theorem parseP_lit_paren (F : Nat) (w : List Char) :
    parseP (F + 1) .lit ('(' :: w) = parseP F (.items ')' [] false) w := by
  conv_lhs => rw [parseP]
  rw [skipWs_cons_ne '(' _ (by decide)]
  rfl

theorem renderInt_length_pos (i : Int) : 1 ≤ (renderInt i).length := by
  obtain ⟨c, t, hct, _⟩ := renderInt_head i
  simp [hct]

theorem sepInts_length (xs : List Int) :
    xs.length ≤ (sepInts xs).length + 1 := by
  induction xs with
  | nil => simp
  | cons x t ih =>
    cases t with
    | nil => simp
    | cons y tt =>
      have h1 := renderInt_length_pos x
      simp only [sepInts, List.length_append, List.length_cons] at ih ⊢
      omega

/-- Re-parsing the Python rendering of a parseable value yields the value
back: `ast.literal_eval(str(v)) == v` on the literal fragment. -/
theorem literal_eval_pyStr (v : JVal) (hv : ParseableV v) :
    literal_eval (pyStr v) = .ok v := by
  cases v with
  | num i =>
    have hrun : parseP (2 * (renderInt i).length + 3 + 1) .lit
        (renderInt i) = .ok (.num i, []) := by
      rw [show (renderInt i : List Char) = renderInt i ++ [] by simp]
      exact parseP_renderInt i [] _ (by rfl)
    show literal_eval (String.mk (renderInt i)) = .ok (.num i)
    unfold literal_eval
    rw [show (String.mk (renderInt i)).data = renderInt i from rfl,
      show 2 * (String.mk (renderInt i)).length + 4 =
        2 * (renderInt i).length + 3 + 1 from rfl, hrun]
    rfl
  | ilist xs =>
    have hrun : parseP (2 * (renderIntList xs).length + 3 + 1) .lit
        (renderIntList xs) = .ok (.ilist xs, []) := by
      rw [show renderIntList xs = '[' :: (sepInts xs ++ ']' :: []) by
        simp [renderIntList]]
      rw [parseP_lit_bracket]
      rw [parseP_sepInts xs _ ']' [] false []
        (by
          have := sepInts_length xs
          simp only [List.length_cons, List.length_append]
          omega)
        (Or.inl rfl)]
      simp [closeWith]
    show literal_eval (String.mk (renderIntList xs)) = .ok (.ilist xs)
    unfold literal_eval
    rw [show (String.mk (renderIntList xs)).data = renderIntList xs from rfl,
      show 2 * (String.mk (renderIntList xs)).length + 4 =
        2 * (renderIntList xs).length + 3 + 1 from rfl, hrun]
    rfl
  | ituple xs =>
    have hrun : parseP (2 * (renderIntTuple xs).length + 3 + 1) .lit
        (renderIntTuple xs) = .ok (.ituple xs, []) := by
      cases xs with
      | nil =>
        rw [show renderIntTuple [] = '(' :: (sepInts [] ++ ')' :: []) from rfl]
        rw [parseP_lit_paren]
        rw [parseP_sepInts [] _ ')' [] false [] (by simp) (Or.inr rfl)]
        simp [closeWith]
      | cons x t =>
        cases t with
        | nil =>
          obtain ⟨c0, t0, hct, hc0⟩ := renderInt_head x
          have hc0s : c0 ≠ ' ' := by
            rcases hc0 with rfl | h
            · decide
            · exact digit_ne _ _ h (by decide)
          have hc0cl : c0 ≠ ')' := by
            rcases hc0 with rfl | h
            · decide
            · exact digit_ne _ _ h (by decide)
          obtain ⟨K, hK⟩ : ∃ K, 2 * (renderIntTuple [x]).length + 3 = K + 1 + 1 :=
            ⟨2 * (renderIntTuple [x]).length + 1, by omega⟩
          rw [show renderIntTuple [x] = '(' :: (renderInt x ++ [',', ')']) from rfl]
          rw [show 2 * ('(' :: (renderInt x ++ [',', ')'])).length + 3 =
            2 * (renderIntTuple [x]).length + 3 from rfl, hK]
          rw [parseP_lit_paren]
          have hlit : parseP (K + 1) .lit (c0 :: (t0 ++ [',', ')'])) =
              .ok (.num x, [',', ')']) := by
            rw [show c0 :: (t0 ++ [',', ')']) = renderInt x ++ [',', ')'] by
              simp [hct]]
            exact parseP_renderInt x _ _ (by rfl)
          rw [show (renderInt x ++ [',', ')'] : List Char) =
            c0 :: (t0 ++ [',', ')']) by simp [hct]]
          rw [parseP_items_step (K + 1) ')' [] false c0 _ hc0s hc0cl, hlit]
          cases K with
          | zero =>
            exfalso
            have h1 := renderInt_length_pos x
            simp only [renderIntTuple, List.length_cons, List.length_append] at hK
            omega
          | succ K2 =>
            show parseP (K2 + 1 + 1) (.items ')' [x] true) (')' :: []) =
              .ok (.ituple [x], [])
            rw [parseP_items_close (K2 + 1) ')' [x] true [] (by decide)]
            rfl
        | cons y tt =>
          obtain ⟨K, hK⟩ : ∃ K, 2 * (renderIntTuple (x :: y :: tt)).length + 3 = K + 1 :=
            ⟨2 * (renderIntTuple (x :: y :: tt)).length + 2, by omega⟩
          rw [show renderIntTuple (x :: y :: tt) =
            '(' :: (sepInts (x :: y :: tt) ++ ')' :: []) from rfl]
          rw [show 2 * ('(' :: (sepInts (x :: y :: tt) ++ ')' :: [])).length + 3 =
            2 * (renderIntTuple (x :: y :: tt)).length + 3 from rfl, hK]
          cases K with
          | zero =>
            exfalso
            simp only [renderIntTuple, List.length_cons, List.length_append] at hK
            omega
          | succ K2 =>
            rw [parseP_lit_paren]
            rw [parseP_sepInts (x :: y :: tt) _ ')' [] false []
              (by
                have hsl := sepInts_length (x :: y :: tt)
                simp only [renderIntTuple, List.length_cons,
                  List.length_append] at hK hsl ⊢
                omega)
              (Or.inr rfl)]
            simp [closeWith]
    show literal_eval (String.mk (renderIntTuple xs)) = .ok (.ituple xs)
    unfold literal_eval
    rw [show (String.mk (renderIntTuple xs)).data = renderIntTuple xs from rfl,
      show 2 * (String.mk (renderIntTuple xs)).length + 4 =
        2 * (renderIntTuple xs).length + 3 + 1 from rfl, hrun]
    rfl
  | nan => simp [ParseableV] at hv
  | str s => simp [ParseableV] at hv
  | obj kvs => simp [ParseableV] at hv
  | point p => simp [ParseableV] at hv
  | ctuple p => simp [ParseableV] at hv
  | poly ring => simp [ParseableV] at hv



theorem closeWith_parseable (c : Char) (xs : List Int) (b : Bool) :
    ParseableV (closeWith c xs b) := by
  unfold closeWith
  split
  · trivial
  · split
    · trivial
    · trivial

theorem parseP_parseable : ∀ (F : Nat) (m : PMode) (cs : List Char)
    (v : JVal) (r : List Char), parseP F m cs = .ok (v, r) → ParseableV v := by
  intro F
  induction F with
  | zero => intro m cs v r h; simp [parseP] at h
  | succ F0 ih =>
    intro m cs v r h
    cases m with
    | lit =>
      rw [parseP] at h
      split at h
      · cases h
      · split_ifs at h with h1 h2 h3 h4 <;>
          first
            | exact ih _ _ _ _ h
            | (cases h <;> trivial)
            | (split at h <;> (cases h <;> trivial))
    | items closer acc sawC =>
      rw [parseP] at h
      split at h
      · cases h
      · split_ifs at h with h1
        · cases h <;> exact closeWith_parseable _ _ _
        · split at h <;>
            first
              | exact ih _ _ _ _ h
              | (cases h <;> exact closeWith_parseable _ _ _)
              | (cases h <;> trivial)
              | (split at h <;>
                  first
                    | exact ih _ _ _ _ h
                    | (split_ifs at h with h2 <;>
                        first
                          | (cases h <;> exact closeWith_parseable _ _ _)
                          | (cases h <;> trivial))
                    | (cases h <;> trivial))

theorem literal_eval_parseable (s : String) (v : JVal)
    (h : literal_eval s = .ok v) : ParseableV v := by
  unfold literal_eval at h
  split at h
  next v2 rest heq =>
    split_ifs at h
    cases h
    exact parseP_parseable _ _ _ _ _ heq
  next e heq => cases h




/-- C10: applying `convert_list_string` to the string rendering of any
integer list returns that list; and re-applying it to an already-parsed
list is the identity on the parse result. -/
theorem C10_convert_list_string_roundtrip :
    (∀ l : List Int,
      convert_list_string (.str (String.mk (renderIntList l))) = .ok (.ilist l)) ∧
    (∀ (s : String) (v : JVal), convert_list_string (.str s) = .ok v →
      (∃ xs, v = .ilist xs) → convert_list_string v = .ok v) := by
  constructor
  · intro l
    exact literal_eval_pyStr (.ilist l) trivial
  · intro s v h hlist
    exact literal_eval_pyStr v (literal_eval_parseable s v h)

theorem C10_witness :
    convert_list_string (.str (String.mk (renderIntList [1, 2, 3]))) =
      .ok (.ilist [1, 2, 3]) ∧
    (convert_list_string (.str "[7, 8]") = .ok (.ilist [7, 8]) ∧
      convert_list_string (.ilist [7, 8]) = .ok (.ilist [7, 8])) :=
  ⟨C10_convert_list_string_roundtrip.1 [1, 2, 3],
    rfl,
    C10_convert_list_string_roundtrip.2 "[7, 8]" (.ilist [7, 8]) rfl
      ⟨[7, 8], rfl⟩⟩

/-- C7 (amended): for every batch containing a way whose `nodes` string
fails literal parsing, the join stage raises an error rather than
silently truncating; well-formed non-list literals (bare integers,
tuples) are, however, accepted without error (see the counterexample). -/
theorem C7_unparseable_nodes_error (osmdf : List Row) (w : Row) (e0 : PyErr)
    (hmem : w ∈ osmdf) (hway : rowTypeIs "way" w = true)
    (hbad : convert_list_string (getCol w "nodes") = .error e0) :
    ∃ e, extend_ways_to_node_view osmdf = .error e := by
  unfold extend_ways_to_node_view
  rcases hrc : requireCols osmdf ["type", "id", "nodes", "lat", "lon"]
    with e | u
  · exact ⟨e, rfl⟩
  · have hw : w ∈ osmdf.filter (rowTypeIs "way") :=
      List.mem_filter.mpr ⟨hmem, hway⟩
    obtain ⟨e, he⟩ := mapE_error_of_mem
      (fun r =>
        match convert_list_string (getCol r "nodes") with
        | .error e => .error e
        | .ok nv => .ok (getCol r "id", nv))
      _ w e0 hw (by simp only [hbad])
    exact ⟨e, by simp only [he]⟩

theorem C7_unparseable_nodes_error_witness :
    (wayBad ∈ batchBad ∧ rowTypeIs "way" wayBad = true ∧
      convert_list_string (getCol wayBad "nodes") = .error .valueError) ∧
    ∃ e, extend_ways_to_node_view batchBad = .error e :=
  ⟨⟨by decide, rfl, rfl⟩,
    C7_unparseable_nodes_error batchBad wayBad .valueError (by decide) rfl rfl⟩

/-- C7 (counterexample to the claim as stated): `"(20, 21)"` is not a
well-formed list literal of integers, yet the join stage does not raise -
the tuple is expanded like a list and both rows join. -/
theorem C7_counterexample :
    isListIntLiteral "(20, 21)" = false ∧
    extend_ways_to_node_view batchTuple =
      .ok [mkJoinRow (.num 6) (.num 0) (.num 20) (.num 2) (.num 3),
           mkJoinRow (.num 6) (.num 1) (.num 21) (.num 4) (.num 5)] :=
  ⟨rfl, rfl⟩


/-! ## Association-list lemmas (dict semantics) -/

theorem lookupJ_setKey_self (r : Row) (k : String) (v : JVal) :
    lookupJ (setKey r k v) k = some v := by
  induction r with
  | nil => simp [setKey, lookupJ]
  | cons p rest ih =>
    obtain ⟨k2, v2⟩ := p
    by_cases h : k2 = k
    · simp [setKey, h, lookupJ]
    · simp [setKey, h, lookupJ, ih]

theorem lookupJ_setKey_ne (r : Row) (k k2 : String) (v : JVal) (h : k2 ≠ k) :
    lookupJ (setKey r k v) k2 = lookupJ r k2 := by
  induction r with
  | nil => simp [setKey, lookupJ, Ne.symm h]
  | cons p rest ih =>
    obtain ⟨k3, v3⟩ := p
    by_cases h3 : k3 = k
    · subst h3
      simp [setKey, lookupJ, Ne.symm h]
    · simp only [setKey, if_neg h3, lookupJ]
      by_cases h4 : k3 = k2 <;> simp [h4, ih]

theorem lookupJ_delKey_self (r : Row) (k : String) :
    lookupJ (delKey r k) k = none := by
  induction r with
  | nil => simp [delKey, lookupJ]
  | cons p rest ih =>
    obtain ⟨k2, v2⟩ := p
    by_cases h : k2 = k
    · simp [delKey, h, ih]
    · simp [delKey, h, lookupJ, ih]

theorem lookupJ_delKey_ne (r : Row) (k k2 : String) (h : k2 ≠ k) :
    lookupJ (delKey r k) k2 = lookupJ r k2 := by
  induction r with
  | nil => simp [delKey]
  | cons p rest ih =>
    obtain ⟨k3, v3⟩ := p
    by_cases h3 : k3 = k
    · subst h3
      simp [delKey, lookupJ, Ne.symm h, ih]
    · simp only [delKey, if_neg h3, lookupJ]
      by_cases h4 : k3 = k2 <;> simp [h4, ih]

theorem lookupJ_foldSet_not_mem (kvs : List (String × String)) (e : Row)
    (k : String) (h : k ∉ kvs.map Prod.fst) :
    lookupJ (kvs.foldl (fun acc kv => setKey acc kv.1 (.str kv.2)) e) k =
      lookupJ e k := by
  induction kvs generalizing e with
  | nil => rfl
  | cons p rest ih =>
    simp only [List.map_cons, List.mem_cons, not_or] at h
    simp only [List.foldl_cons]
    rw [ih (setKey e p.1 (.str p.2)) h.2, lookupJ_setKey_ne e p.1 k _ h.1]

theorem lookupJ_foldSet_mem (kvs : List (String × String)) (e : Row)
    (k : String) (v : String) (hnd : (kvs.map Prod.fst).Nodup)
    (hin : (k, v) ∈ kvs) :
    lookupJ (kvs.foldl (fun acc kv => setKey acc kv.1 (.str kv.2)) e) k =
      some (.str v) := by
  induction kvs generalizing e with
  | nil => cases hin
  | cons p rest ih =>
    simp only [List.map_cons, List.nodup_cons] at hnd
    simp only [List.foldl_cons]
    rcases List.mem_cons.mp hin with heq | hmem
    · obtain ⟨k2, v2⟩ := p
      cases heq
      rw [lookupJ_foldSet_not_mem rest _ k hnd.1, lookupJ_setKey_self]
    · by_cases hk : k = p.1
      · exact absurd (List.mem_map.mpr ⟨(k, v), hmem, by rw [hk]⟩) hnd.1
      · exact ih (setKey e p.1 (.str p.2)) hnd.2 hmem

/-! ## C9: tag flattening -/

/-- C9 (amended): flattening removes the `tags` key, and every tag
key/value pair whose key is not the string `tags` itself ends up as a
top-level field; elements without a `tags` mapping pass through
unchanged.  (A tag key equal to `tags` is hoisted and then deleted by
`del dct['tags']`, so its value is lost - see the counterexample.) -/
theorem C9_flatten_tags :
    (∀ (e : Row) (kvs : List (String × String)),
      lookupJ e "tags" = some (.obj kvs) → (kvs.map Prod.fst).Nodup →
      lookupJ (flattenElem e) "tags" = none ∧
      ∀ k v, (k, v) ∈ kvs → k ≠ "tags" →
        lookupJ (flattenElem e) k = some (.str v)) ∧
    (∀ e : Row, lookupJ e "tags" = none → flattenElem e = e) := by
  constructor
  · intro e kvs h hnd
    have hfe : flattenElem e =
        delKey (kvs.foldl (fun acc kv => setKey acc kv.1 (.str kv.2)) e)
          "tags" := by
      unfold flattenElem
      rw [h]
    constructor
    · rw [hfe, lookupJ_delKey_self]
    · intro k v hin hne
      rw [hfe, lookupJ_delKey_ne _ _ _ hne, lookupJ_foldSet_mem kvs e k v hnd hin]
  · intro e h
    unfold flattenElem
    rw [h]

theorem C9_flatten_tags_witness :
    (lookupJ [("type", JVal.str "node"), ("id", JVal.num 2),
        ("tags", JVal.obj [("building", "yes"), ("name", "A")])] "tags" =
      some (.obj [("building", "yes"), ("name", "A")]) ∧
      ((["building", "name"] : List String)).Nodup ∧
      ("building", "yes") ∈ [("building", "yes"), ("name", "A")] ∧
      ("building" : String) ≠ "tags") ∧
    (lookupJ (flattenElem [("type", JVal.str "node"), ("id", JVal.num 2),
        ("tags", JVal.obj [("building", "yes"), ("name", "A")])]) "tags" =
      none ∧
    lookupJ (flattenElem [("type", JVal.str "node"), ("id", JVal.num 2),
        ("tags", JVal.obj [("building", "yes"), ("name", "A")])]) "building" =
      some (.str "yes")) := by
  refine ⟨⟨rfl, by decide, by decide, by decide⟩, ?_, ?_⟩
  · exact (C9_flatten_tags.1 [("type", JVal.str "node"), ("id", JVal.num 2),
      ("tags", JVal.obj [("building", "yes"), ("name", "A")])]
      [("building", "yes"), ("name", "A")] rfl (by decide)).1
  · exact (C9_flatten_tags.1 [("type", JVal.str "node"), ("id", JVal.num 2),
      ("tags", JVal.obj [("building", "yes"), ("name", "A")])]
      [("building", "yes"), ("name", "A")] rfl (by decide)).2
      "building" "yes" (by decide) (by decide)

/-- C9 (counterexample to the claim as stated): an element whose tag
mapping contains the key `tags` loses that tag's value entirely - it is
hoisted and then deleted - so not every former tag value is present as a
top-level field. -/
theorem C9_counterexample :
    flattenElem tagShadowElem = [("type", .str "node"), ("id", .num 1)] ∧
    lookupJ (flattenElem tagShadowElem) "tags" ≠ some (.str "x") :=
  ⟨rfl, by decide⟩


/-! ## C5: which stages mutate their argument -/

theorem setKey_ne_of_not_bound (r : Row) (k : String) (v : JVal)
    (h : lookupJ r k = none) : setKey r k v ≠ r := by
  intro he
  have hs := lookupJ_setKey_self r k v
  rw [he, h] at hs
  cases hs

/-- C5 (amended): `extend_ways_to_node_view` leaves its argument
unchanged, but the two geometry stages mutate theirs in place: after a
successful call the argument of `coords_df_to_geopandas_points` aliases
the returned table, and the argument of `geopandas_points_to_poly` holds
the `geometry`-extended table; whenever the input is non-empty and does
not already carry the derived column, this post-call state differs from
the value passed in. -/
theorem C5_stage_mutation :
    (∀ df : List Row, extend_arg_after df = df) ∧
    (∀ (df out : List Row), coords_df_to_geopandas_points df = .ok out →
      coords_arg_after df = out) ∧
    (∀ (df out : List Row), mapE addGeometry df = .ok out →
      poly_arg_after df = out) ∧
    (∀ (r : Row) (rest out : List Row), lookupJ r "Coordinates" = none →
      coords_df_to_geopandas_points (r :: rest) = .ok out →
      out ≠ r :: rest) ∧
    (∀ (r : Row) (rest out : List Row), lookupJ r "geometry" = none →
      mapE addGeometry (r :: rest) = .ok out → out ≠ r :: rest) := by
  refine ⟨fun df => rfl, ?_, ?_, ?_, ?_⟩
  · intro df out h
    unfold coords_arg_after
    rw [h]
  · intro df out h
    unfold poly_arg_after
    rw [h]
  · intro r rest out hno h
    unfold coords_df_to_geopandas_points at h
    rcases hrc : requireCols (r :: rest) ["lon", "lat"] with e | u
    · rw [hrc] at h
      cases h
    · rw [hrc] at h
      have h2 : mapE (fun r =>
          match pointOf (getCol r "lon") (getCol r "lat") with
          | .error e => .error e
          | .ok p => .ok (setKey r "Coordinates" p)) (r :: rest) =
          .ok out := h
      unfold mapE at h2
      rcases hp : pointOf (getCol r "lon") (getCol r "lat") with e | p
      · rw [hp] at h2
        cases h2
      · rw [hp] at h2
        rcases ht : mapE (fun r =>
            match pointOf (getCol r "lon") (getCol r "lat") with
            | .error e => .error e
            | .ok p => .ok (setKey r "Coordinates" p)) rest with e | ys
        · rw [ht] at h2
          cases h2
        · rw [ht] at h2
          cases h2
          intro he
          have hhead : setKey r "Coordinates" p = r := by
            injection he
          exact setKey_ne_of_not_bound r "Coordinates" p hno hhead
  · intro r rest out hno h
    unfold mapE at h
    rcases hg : addGeometry r with e | y
    · rw [hg] at h
      cases h
    · rw [hg] at h
      rcases ht : mapE addGeometry rest with e | ys
      · rw [ht] at h
        cases h
      · rw [ht] at h
        cases h
        intro he
        unfold addGeometry at hg
        rcases hc : getCol r "Coordinates" with _ | _ | _ | _ | _ | _ | p | _ | _ <;>
          rw [hc] at hg <;> try cases hg
        next =>
          have hhead : setKey r "geometry" (.ctuple p) = r := by
            injection he
          exact setKey_ne_of_not_bound r "geometry" (.ctuple p) hno hhead

theorem C5_stage_mutation_witness :
    (extend_arg_after pointsInput = pointsInput ∧
      coords_df_to_geopandas_points pointsInput =
        .ok [pointsRow 1 0 10 7 8] ∧
      coords_arg_after pointsInput = [pointsRow 1 0 10 7 8]) ∧
    (lookupJ [("way_id", JVal.num 1)] "Coordinates" = none ∧
      ∀ out, coords_df_to_geopandas_points
        [[("way_id", JVal.num 1), ("lat", JVal.num 0), ("lon", JVal.num 0)]] =
          .ok out → out ≠ [[("way_id", JVal.num 1), ("lat", JVal.num 0),
            ("lon", JVal.num 0)]]) :=
  ⟨⟨C5_stage_mutation.1 pointsInput, rfl,
    C5_stage_mutation.2.1 pointsInput [pointsRow 1 0 10 7 8] rfl⟩,
   by decide,
   fun out h => C5_stage_mutation.2.2.2.1
     [("way_id", JVal.num 1), ("lat", JVal.num 0), ("lon", JVal.num 0)] [] out
     (by decide) h⟩

/-- C5 (counterexample to the claim as stated): the points stage does not
leave its input unchanged - after the call the argument carries the new
`Coordinates` column. -/
theorem C5_counterexample : coords_arg_after pointsInput ≠ pointsInput := by
  decide


theorem rowTypeIs_way_nodeRow (t : Int × Int × Int) :
    rowTypeIs "way" (nodeRow t) = false := rfl

theorem rowTypeIs_node_nodeRow (t : Int × Int × Int) :
    rowTypeIs "node" (nodeRow t) = true := rfl

theorem filter_way_batch (tbl : List (Int × Int × Int)) (wid : Int)
    (ns : List Int) :
    (tbl.map nodeRow ++ [wayRow wid ns]).filter (rowTypeIs "way") =
      [wayRow wid ns] := by
  rw [List.filter_append]
  have h1 : (tbl.map nodeRow).filter (rowTypeIs "way") = [] := by
    induction tbl with
    | nil => rfl
    | cons t ts ih => simp [rowTypeIs_way_nodeRow, ih]
  rw [h1]
  rfl

theorem filter_node_batch (tbl : List (Int × Int × Int)) (wid : Int)
    (ns : List Int) :
    (tbl.map nodeRow ++ [wayRow wid ns]).filter (rowTypeIs "node") =
      tbl.map nodeRow := by
  rw [List.filter_append]
  have h1 : (tbl.map nodeRow).filter (rowTypeIs "node") = tbl.map nodeRow := by
    induction tbl with
    | nil => rfl
    | cons t ts ih => simp [rowTypeIs_node_nodeRow, ih]
  rw [h1]
  simp [rowTypeIs, wayRow, lookupJ]

theorem convert_wayRow (wid : Int) (ns : List Int) :
    convert_list_string (getCol (wayRow wid ns) "nodes") = .ok (.ilist ns) :=
  literal_eval_pyStr (.ilist ns) trivial

theorem requireCols_batch (t0 : Int × Int × Int)
    (ts : List (Int × Int × Int)) (wid : Int) (ns : List Int) :
    requireCols ((t0 :: ts).map nodeRow ++ [wayRow wid ns])
      ["type", "id", "nodes", "lat", "lon"] = .ok () := by
  simp [requireCols, hasCol, List.any_append, nodeRow, wayRow, lookupJ]

theorem extend_ways_on_batch (t0 : Int × Int × Int)
    (ts : List (Int × Int × Int)) (wid : Int) (ns : List Int) :
    extend_ways_to_node_view ((t0 :: ts).map nodeRow ++ [wayRow wid ns]) =
      .ok (ns.enum.flatMap (fun p =>
        (((t0 :: ts).map nodeRow).filter
          (fun nr => decide (getCol nr "id" = .num p.2))).map (fun nr =>
            mkJoinRow (.num wid) (.num (p.1 : Int)) (getCol nr "id")
              (getCol nr "lat") (getCol nr "lon")))) := by
  unfold extend_ways_to_node_view
  rw [requireCols_batch t0 ts wid ns]
  rw [filter_way_batch (t0 :: ts) wid ns, filter_node_batch (t0 :: ts) wid ns]
  have hmapE : mapE (fun r =>
      match convert_list_string (getCol r "nodes") with
      | .error e => .error e
      | .ok nv => Except.ok (getCol r "id", nv)) [wayRow wid ns] =
      .ok [(.num wid, .ilist ns)] := by
    unfold mapE
    rw [convert_wayRow wid ns]
    rfl
  simp only [hmapE, List.flatMap_cons, List.flatMap_nil, List.append_nil,
    seriesOf]
  congr 1
  rw [List.map_map]
  exact List.flatMap_map _ _ _


theorem getCol_nodeRow_id (t : Int × Int × Int) :
    getCol (nodeRow t) "id" = .num t.1 := rfl

theorem filter_nodeRow_id_not_mem (tbl : List (Int × Int × Int)) (n : Int)
    (h : n ∉ tbl.map (fun t => t.1)) :
    (tbl.map nodeRow).filter
      (fun nr => decide (getCol nr "id" = JVal.num n)) = [] := by
  induction tbl with
  | nil => rfl
  | cons t ts ih =>
    simp only [List.map_cons, List.mem_cons, not_or] at h
    simp only [List.map_cons, List.filter_cons, getCol_nodeRow_id]
    have hd : decide (JVal.num t.1 = JVal.num n) = false := by
      simp
      omega
    simp only [hd, Bool.false_eq_true, if_false]
    exact ih h.2

theorem filter_nodeRow_id_len (tbl : List (Int × Int × Int)) (n : Int)
    (hnd : (tbl.map (fun t => t.1)).Nodup) :
    ((tbl.map nodeRow).filter
      (fun nr => decide (getCol nr "id" = JVal.num n))).length =
      if n ∈ tbl.map (fun t => t.1) then 1 else 0 := by
  induction tbl with
  | nil => rfl
  | cons t ts ih =>
    simp only [List.map_cons, List.nodup_cons] at hnd
    by_cases hin : t.1 = n
    · subst hin
      simp only [List.map_cons, List.filter_cons, getCol_nodeRow_id]
      rw [if_pos (by simp)]
      simp only [List.length_cons]
      rw [filter_nodeRow_id_not_mem ts t.1 hnd.1]
      simp
    · simp only [List.map_cons, List.filter_cons, getCol_nodeRow_id]
      have hd : decide (JVal.num t.1 = JVal.num n) = false := by
        simp
        omega
      simp only [hd, Bool.false_eq_true, if_false]
      rw [ih hnd.2]
      by_cases hm : n ∈ List.map (fun t => t.1) ts <;>
        simp [hm, Ne.symm hin]

theorem mem_merged_shape (tbl : List (Int × Int × Int)) (wid : Int)
    (ns : List Int) (r : Row)
    (h : r ∈ ns.enum.flatMap (fun p =>
      ((tbl.map nodeRow).filter
        (fun nr => decide (getCol nr "id" = JVal.num p.2))).map (fun nr =>
          mkJoinRow (.num wid) (.num (p.1 : Int)) (getCol nr "id")
            (getCol nr "lat") (getCol nr "lon")))) :
    ∃ sn nid la lo : Int,
      r = mkJoinRow (.num wid) (.num sn) (.num nid) (.num la) (.num lo) := by
  simp only [List.mem_flatMap, List.mem_map, List.mem_filter] at h
  obtain ⟨p, hp, nr, ⟨hnr, hid⟩, rfl⟩ := h
  obtain ⟨t, ht, rfl⟩ := hnr
  exact ⟨p.1, t.1, t.2.1, t.2.2, rfl⟩


theorem coords_two_rows (wid sa na laa loa sb nb lab lob : Int) :
    coords_df_to_geopandas_points
      [mkJoinRow (.num wid) (.num sa) (.num na) (.num laa) (.num loa),
       mkJoinRow (.num wid) (.num sb) (.num nb) (.num lab) (.num lob)] =
      .ok [pointsRow wid sa na laa loa, pointsRow wid sb nb lab lob] := rfl

theorem poly_two_rows (wid sa na laa loa sb nb lab lob : Int) :
    geopandas_points_to_poly
      [pointsRow wid sa na laa loa, pointsRow wid sb nb lab lob] =
      .error .valueError := by
  have hgeom : mapE addGeometry
      [pointsRow wid sa na laa loa, pointsRow wid sb nb lab lob] =
      .ok [geomRow wid sa na laa loa, geomRow wid sb nb lab lob] := rfl
  have hmap : [geomRow wid sa na laa loa, geomRow wid sb nb lab lob].map
      (getCol · "way_id") = [JVal.num wid, JVal.num wid] := rfl
  have hkeys : dedupGo [JVal.num wid, JVal.num wid] [] = [JVal.num wid] := by
    simp [dedupGo]
  have hrc : requireCols [geomRow wid sa na laa loa, geomRow wid sb nb lab lob]
      ["way_id"] = .ok () := rfl
  have hki : keyInts [JVal.num wid] = .ok [wid] := rfl
  have hsort : sortInts [wid] = [wid] := rfl
  have h1 : getCol (geomRow wid sa na laa loa) "way_id" = JVal.num wid := rfl
  have h2 : getCol (geomRow wid sb nb lab lob) "way_id" = JVal.num wid := rfl
  have hfilter : [geomRow wid sa na laa loa, geomRow wid sb nb lab lob].filter
      (fun r => decide (getCol r "way_id" = JVal.num wid)) =
      [geomRow wid sa na laa loa, geomRow wid sb nb lab lob] := by
    simp [List.filter_cons, h1, h2]
  have hgrp : polyOfGroup [geomRow wid sa na laa loa, geomRow wid sb nb lab lob]
      wid = .error .valueError := by
    unfold polyOfGroup
    rw [hfilter]
    rfl
  have hmapE2 : mapE (polyOfGroup
      [geomRow wid sa na laa loa, geomRow wid sb nb lab lob]) [wid] =
      .error .valueError := by
    unfold mapE
    rw [hgrp]
  unfold geopandas_points_to_poly
  simp only [hgeom, hrc, hmap, hkeys, hki, hsort, hmapE2]


/-- C3 (amended): for a batch of node elements (with distinct ids) and a
way referencing three node ids of which exactly one is unresolvable, the
join drops only the unresolvable row, yielding exactly 2 rows for the
way, and does not raise; the point stage succeeds on those rows; but the
assembler then raises a ValueError building the 2-point ring (shapely
requires at least 3 coordinate tuples in a ring). -/
theorem C3_referential_gap (tbl : List (Int × Int × Int)) (wid n1 n2 n3 : Int)
    (hnd : (tbl.map (fun t => t.1)).Nodup)
    (hcount : (if n1 ∈ tbl.map (fun t => t.1) then 1 else 0) +
      ((if n2 ∈ tbl.map (fun t => t.1) then 1 else 0) +
       (if n3 ∈ tbl.map (fun t => t.1) then 1 else 0)) = 2) :
    ∃ rows pts, extend_ways_to_node_view
        (tbl.map nodeRow ++ [wayRow wid [n1, n2, n3]]) = .ok rows ∧
      rows.length = 2 ∧
      coords_df_to_geopandas_points rows = .ok pts ∧
      geopandas_points_to_poly pts = .error .valueError := by
  obtain ⟨t0, ts, rfl⟩ : ∃ t0 ts, tbl = t0 :: ts := by
    cases tbl with
    | nil => simp at hcount
    | cons a l => exact ⟨a, l, rfl⟩
  have hext := extend_ways_on_batch t0 ts wid [n1, n2, n3]
  have hlen : ([n1, n2, n3].enum.flatMap (fun p =>
      (((t0 :: ts).map nodeRow).filter
        (fun nr => decide (getCol nr "id" = JVal.num p.2))).map (fun nr =>
          mkJoinRow (.num wid) (.num (p.1 : Int)) (getCol nr "id")
            (getCol nr "lat") (getCol nr "lon")))).length = 2 := by
    have e1 := filter_nodeRow_id_len (t0 :: ts) n1 hnd
    have e2 := filter_nodeRow_id_len (t0 :: ts) n2 hnd
    have e3 := filter_nodeRow_id_len (t0 :: ts) n3 hnd
    rw [show ([n1, n2, n3].enum) = [(0, n1), (1, n2), (2, n3)] from rfl]
    simp only [List.flatMap_cons, List.flatMap_nil, List.append_nil,
      List.length_append, List.length_map]
    rw [e1, e2, e3]
    omega
  obtain ⟨a, b, hab⟩ := List.length_eq_two.mp hlen
  have ha : a ∈ ([n1, n2, n3].enum.flatMap (fun p =>
      (((t0 :: ts).map nodeRow).filter
        (fun nr => decide (getCol nr "id" = JVal.num p.2))).map (fun nr =>
          mkJoinRow (.num wid) (.num (p.1 : Int)) (getCol nr "id")
            (getCol nr "lat") (getCol nr "lon")))) := by
    rw [hab]
    simp
  have hb : b ∈ ([n1, n2, n3].enum.flatMap (fun p =>
      (((t0 :: ts).map nodeRow).filter
        (fun nr => decide (getCol nr "id" = JVal.num p.2))).map (fun nr =>
          mkJoinRow (.num wid) (.num (p.1 : Int)) (getCol nr "id")
            (getCol nr "lat") (getCol nr "lon")))) := by
    rw [hab]
    simp
  obtain ⟨sa, na, laa, loa, rfl⟩ :=
    mem_merged_shape (t0 :: ts) wid [n1, n2, n3] a ha
  obtain ⟨sb, nb, lab, lob, rfl⟩ :=
    mem_merged_shape (t0 :: ts) wid [n1, n2, n3] b hb
  refine ⟨[mkJoinRow (.num wid) (.num sa) (.num na) (.num laa) (.num loa),
           mkJoinRow (.num wid) (.num sb) (.num nb) (.num lab) (.num lob)],
          [pointsRow wid sa na laa loa, pointsRow wid sb nb lab lob],
          ?_, rfl, coords_two_rows wid sa na laa loa sb nb lab lob,
          poly_two_rows wid sa na laa loa sb nb lab lob⟩
  rw [hext, hab]

theorem C3_referential_gap_witness :
    ((([(10, 0, 0), (11, 1, 1)] : List (Int × Int × Int)).map
        (fun t => t.1)).Nodup ∧
      (if (10 : Int) ∈ ([(10, 0, 0), (11, 1, 1)] :
          List (Int × Int × Int)).map (fun t => t.1) then 1 else 0) +
      (((if (11 : Int) ∈ ([(10, 0, 0), (11, 1, 1)] :
          List (Int × Int × Int)).map (fun t => t.1) then 1 else 0)) +
       ((if (12 : Int) ∈ ([(10, 0, 0), (11, 1, 1)] :
          List (Int × Int × Int)).map (fun t => t.1) then 1 else 0))) = 2) ∧
    (∃ rows pts, extend_ways_to_node_view
        (([(10, 0, 0), (11, 1, 1)] : List (Int × Int × Int)).map nodeRow ++
          [wayRow 5 [10, 11, 12]]) = .ok rows ∧
      rows.length = 2 ∧
      coords_df_to_geopandas_points rows = .ok pts ∧
      geopandas_points_to_poly pts = .error .valueError) :=
  ⟨⟨by decide, by decide⟩,
    C3_referential_gap [(10, 0, 0), (11, 1, 1)] 5 10 11 12
      (by decide) (by decide)⟩

/-- C3 (counterexample to the claim as stated): on the gap batch the join
does drop only the unresolved row (two rows remain for way 5), but the
pipeline then raises a ValueError in the polygon constructor instead of
building a 2-point ring without error. -/
theorem C3_counterexample :
    extend_ways_to_node_view batchGap =
      .ok [mkJoinRow (.num 5) (.num 0) (.num 10) (.num 0) (.num 0),
           mkJoinRow (.num 5) (.num 1) (.num 11) (.num 1) (.num 1)] ∧
    run_pipeline batchGap = .error .valueError :=
  ⟨rfl, rfl⟩

end OsmPoly
